import Mathlib

/-!
Verification of the paginated-fetch-and-merge downloader
(scripts/openpayments_general_payments_download_2023.py).

The program is shallowly embedded: files are lists of bytes (`List Char`)
or lists of text lines (`List String`); HTTP traffic is a value of an
inductive result type; the thread pools are modelled by an explicit
completion order, a list that is a permutation of the page indices.
Raised Python exceptions are modelled with `Except` in the function
bodies, and a `try/except` wrapper by matching on that `Except`.
-/

/-- Page size of every request (source constant PAGE_LIMIT = 5000). -/
def PAGE_LIMIT : Nat := 5000

/-- Attempt ceiling of the manual throttle-retry loop (source MANUAL_ATTEMPTS = 5). -/
def MANUAL_ATTEMPTS : Nat := 5

/-- Minimum column count the validator demands (source EXPECTED_MIN_COLS = 80). -/
def EXPECTED_MIN_COLS : Nat := 80

/-- Block size of the backward scan in truncate_trailing_partial_row
(source: block = 131072). -/
def ttprBlock : Nat := 131072

/-- Model of buffer.rfind(b"\n"): the index of the last newline in a byte
list, or none when there is no newline. -/
def rfindNl : List Char → Option Nat
  | [] => none
  | c :: rest =>
    match rfindNl rest with
    | some i => some (i + 1)
    | none => if c = '\n' then some 0 else none

/-- The backward block scan of truncate_trailing_partial_row: starting with
the read position at `pos` and the bytes `content[pos:]` already in
`buffer`, read one block of `content` ending at `pos` (`readpos` is
`max 0 (pos - block)`, which is natural subtraction here), prepend it to
the buffer, and return the absolute index of the last newline found, or
recurse one block earlier.  Mirrors the `while pos > 0` loop of the
source; the block size is a parameter so that the loop terminates for any
positive block. -/
def ttprScan (block : Nat) (hb : 0 < block) (content : List Char) (pos : Nat)
    (buffer : List Char) : Option Nat :=
  if pos = 0 then none
  else
    match rfindNl ((content.drop (pos - block)).take (pos - (pos - block)) ++ buffer) with
    | some idx => some (pos - block + idx)
    | none =>
      ttprScan block hb content (pos - block)
        ((content.drop (pos - block)).take (pos - (pos - block)) ++ buffer)
termination_by pos
decreasing_by
  omega

theorem ttprBlock_pos : 0 < ttprBlock := by simp [ttprBlock]

/-- Model of truncate_trailing_partial_row on the bytes of a file: a no-op
on an empty file or one already ending in a newline; otherwise the file is
truncated to just after the last newline located by the backward block
scan, and to length zero when the scan finds no newline. -/
def truncate_trailing_partial_row (content : List Char) : List Char :=
  if content.length = 0 then content
  else if content.getLast? = some '\n' then content
  else
    match ttprScan ttprBlock ttprBlock_pos content content.length [] with
    | none => []
    | some lastNl => content.take (lastNl + 1)

theorem rfindNl_cons_eq_none (c : Char) (rest : List Char) :
    rfindNl (c :: rest) = none ↔ (c ≠ '\n' ∧ rfindNl rest = none) := by
  rw [rfindNl]
  cases hr : rfindNl rest with
  | some i => simp
  | none => by_cases hc : c = '\n' <;> simp [hc]

theorem rfindNl_eq_none_iff (l : List Char) : rfindNl l = none ↔ '\n' ∉ l := by
  induction l with
  | nil => simp [rfindNl]
  | cons c rest ih =>
    rw [rfindNl_cons_eq_none, ih, List.mem_cons]
    constructor
    · rintro ⟨hc, hr⟩ (h | h)
      · exact hc h.symm
      · exact hr h
    · intro h
      exact ⟨fun hc => h (Or.inl hc.symm), fun hm => h (Or.inr hm)⟩

theorem rfindNl_append_some (l₁ l₂ : List Char) (i : Nat) (h : rfindNl l₂ = some i) :
    rfindNl (l₁ ++ l₂) = some (l₁.length + i) := by
  induction l₁ with
  | nil => simpa using h
  | cons c rest ih =>
    rw [List.cons_append, rfindNl, ih]
    show some (rest.length + i + 1) = some ((c :: rest).length + i)
    simp only [List.length_cons, Option.some.injEq]
    omega

theorem rfindNl_spec (l : List Char) (i : Nat) (h : rfindNl l = some i) :
    l[i]? = some '\n' ∧ '\n' ∉ l.drop (i + 1) := by
  induction l generalizing i with
  | nil => simp [rfindNl] at h
  | cons c rest ih =>
    rw [rfindNl] at h
    cases hr : rfindNl rest with
    | some j =>
      simp only [hr] at h
      obtain ⟨hg, hd⟩ := ih j hr
      injection h with h2
      subst h2
      constructor
      · simpa using hg
      · simpa using hd
    | none =>
      simp only [hr] at h
      by_cases hc : c = '\n'
      · subst hc
        rw [if_pos rfl] at h
        injection h with h2
        subst h2
        refine ⟨by simp, ?_⟩
        simpa using (rfindNl_eq_none_iff rest).mp hr
      · rw [if_neg hc] at h
        simp at h

theorem rfindNl_of_last (l : List Char) (i : Nat)
    (hg : l[i]? = some '\n') (hd : '\n' ∉ l.drop (i + 1)) :
    rfindNl l = some i := by
  cases hr : rfindNl l with
  | none =>
    exfalso
    have hmem : '\n' ∈ l := List.mem_iff_getElem?.mpr ⟨i, hg⟩
    exact (rfindNl_eq_none_iff l).mp hr hmem
  | some j =>
    obtain ⟨hg2, hd2⟩ := rfindNl_spec l j hr
    rcases Nat.lt_trichotomy i j with hij | hij | hij
    · exfalso
      apply hd
      apply List.mem_iff_getElem?.mpr
      refine ⟨j - (i + 1), ?_⟩
      rw [List.getElem?_drop]
      have he : i + 1 + (j - (i + 1)) = j := by omega
      rw [he]
      exact hg2
    · rw [hij]
    · exfalso
      apply hd2
      apply List.mem_iff_getElem?.mpr
      refine ⟨i - (j + 1), ?_⟩
      rw [List.getElem?_drop]
      have he : j + 1 + (i - (j + 1)) = i := by omega
      rw [he]
      exact hg

theorem ttprScan_eq (block : Nat) (hb : 0 < block) (content : List Char) (pos : Nat) :
    pos ≤ content.length → '\n' ∉ content.drop pos →
    ttprScan block hb content pos (content.drop pos) = rfindNl content := by
  induction pos using Nat.strong_induction_on with
  | _ pos ih =>
    intro hle hnb
    rw [ttprScan]
    by_cases h0 : pos = 0
    · subst h0
      simp only [if_pos rfl]
      simp only [List.drop_zero] at hnb
      exact ((rfindNl_eq_none_iff content).mpr hnb).symm
    · simp only [if_neg h0]
      have hchunk :
          (content.drop (pos - block)).take (pos - (pos - block)) ++ content.drop pos
            = content.drop (pos - block) := by
        have h1 : (content.drop (pos - block)).drop (pos - (pos - block))
            = content.drop pos := by
          rw [List.drop_drop]
          congr 1
          omega
        conv_rhs => rw [← List.take_append_drop (pos - (pos - block)) (content.drop (pos - block))]
        rw [h1]
      rw [hchunk]
      cases hr : rfindNl (content.drop (pos - block)) with
      | some idx =>
        have h1 := rfindNl_append_some (content.take (pos - block))
          (content.drop (pos - block)) idx hr
        rw [List.take_append_drop, List.length_take] at h1
        have hmin : min (pos - block) content.length = pos - block := by omega
        rw [hmin] at h1
        rw [h1]
      | none =>
        have hlt : pos - block < pos := by omega
        exact ih (pos - block) hlt (by omega)
          ((rfindNl_eq_none_iff (content.drop (pos - block))).mp hr)

/-- C3: trailing-record repair leaves an empty file or one ending in a
newline unchanged; otherwise it truncates the file to end immediately
after its last newline byte (keeping every byte up to and including it),
and truncates a file with no newline at all to length zero. -/
theorem C3_trailing_repair (content : List Char) :
    (content = [] ∨ content.getLast? = some '\n' →
      truncate_trailing_partial_row content = content)
  ∧ (content ≠ [] → content.getLast? ≠ some '\n' →
      ('\n' ∉ content → truncate_trailing_partial_row content = [])
    ∧ (∀ i, content[i]? = some '\n' → '\n' ∉ content.drop (i + 1) →
        truncate_trailing_partial_row content = content.take (i + 1))) := by
  constructor
  · rintro (hnil | hlast)
    · subst hnil; rfl
    · unfold truncate_trailing_partial_row
      by_cases hlen : content.length = 0
      · simp [hlen]
      · simp [hlen, hlast]
  · intro hne hlast
    have hlen : content.length ≠ 0 := by
      intro h
      exact hne (List.eq_nil_of_length_eq_zero h)
    have hscan : ttprScan ttprBlock ttprBlock_pos content content.length []
        = rfindNl content := by
      have := ttprScan_eq ttprBlock ttprBlock_pos content content.length (le_refl _) (by simp)
      simpa using this
    constructor
    · intro hnomem
      unfold truncate_trailing_partial_row
      simp only [if_neg hlen, if_neg hlast, hscan]
      rw [(rfindNl_eq_none_iff content).mpr hnomem]
    · intro i hg hd
      unfold truncate_trailing_partial_row
      simp only [if_neg hlen, if_neg hlast, hscan]
      rw [rfindNl_of_last content i hg hd]

/-- Concrete run of C3: "ab\ncd" (no terminating newline) is truncated to
end exactly at its last newline, and a file with no newline at all is
truncated to empty. -/
theorem C3_trailing_repair_witness :
    truncate_trailing_partial_row ['a', 'b', '\n', 'c', 'd'] = ['a', 'b', '\n']
  ∧ truncate_trailing_partial_row ['1', ',', '2'] = [] :=
  ⟨((C3_trailing_repair ['a', 'b', '\n', 'c', 'd']).2 (by decide) (by decide)).2 2
      (by decide) (by decide),
    ((C3_trailing_repair ['1', ',', '2']).2 (by decide) (by decide)).1 (by decide)⟩

/-- Field-scanning state of Python csv.reader's default dialect while it
reads one record: at the start of a field, inside an unquoted field, or
inside a quoted field. -/
inductive CsvState where
  | fieldStart
  | inField
  | inQuoted

/-- Model of Python csv.reader (default dialect) on one line: commas split
fields except inside a quoted field; a quote opens a quoted field only at
the start of a field; a doubled quote inside a quoted field is a literal
quote; after the closing quote the field continues unquoted.  `cur` holds
the current field's characters in reverse. -/
def csvFields : List Char → CsvState → List Char → List String
  | [], _, cur => [String.mk cur.reverse]
  | c :: rest, CsvState.fieldStart, cur =>
    if c = '"' then csvFields rest CsvState.inQuoted cur
    else if c = ',' then String.mk cur.reverse :: csvFields rest CsvState.fieldStart []
    else csvFields rest CsvState.inField (c :: cur)
  | c :: rest, CsvState.inField, cur =>
    if c = ',' then String.mk cur.reverse :: csvFields rest CsvState.fieldStart []
    else csvFields rest CsvState.inField (c :: cur)
  | c :: rest, CsvState.inQuoted, cur =>
    if c = '"' then
      match rest with
      | [] => [String.mk cur.reverse]
      | c2 :: rest2 =>
        if c2 = '"' then csvFields rest2 CsvState.inQuoted (c2 :: cur)
        else if c2 = ',' then String.mk cur.reverse :: csvFields rest2 CsvState.fieldStart []
        else csvFields rest2 CsvState.inField (c2 :: cur)
    else csvFields rest CsvState.inQuoted (c :: cur)

/-- Model of next(csv.reader([line])): the fields of one line. -/
def csvLine (line : String) : List String :=
  csvFields line.toList CsvState.fieldStart []

/-- Model of Python's `not line.strip()`: the line has only whitespace. -/
def isBlankLine (l : String) : Bool := l.toList.all Char.isWhitespace

/-- Model of validate_header_min_cols on the decoded text of the file,
given as its list of lines (text.splitlines()).  The bounded prefix read
and the encoding fallback of the source are elided: decoding with
errors="replace" never raises, so the header candidate is the first
non-blank line of the decoded text. -/
def validate_header_min_cols (fileLines : List String) (expectedMinCols : Nat) :
    Bool × String :=
  match fileLines.find? (fun l => !(isBlankLine l)) with
  | none => (false, "empty_or_binary_file")
  | some headerLine =>
    if (csvLine headerLine).length < expectedMinCols then
      (false, "too_few_columns(" ++ toString (csvLine headerLine).length ++ "<"
        ++ toString expectedMinCols ++ ")")
    else (true, "")

theorem csvFields_comma_replicate (n : Nat) :
    csvFields (List.replicate n ',') CsvState.fieldStart [] =
      List.replicate n "" ++ [""] := by
  induction n with
  | zero => rfl
  | succ n ih =>
    rw [List.replicate_succ]
    rw [csvFields]
    simp only [reduceIte, ih, List.replicate_succ, List.cons_append]
    rfl

/-- C8: the validator takes the first non-blank line of the decoded file
as the header, parses it with CSV quoting rules (a quoted field with an
embedded comma is one column, so the raw comma count is not what is
checked), fails exactly when the parsed column count is below the minimum
(a header with exactly the minimum succeeds and the same header fails
against a minimum one larger), and reports empty_or_binary_file when
there is no non-blank line. -/
theorem C8_validator (fileLines : List String) (minCols : Nat) :
    (fileLines.find? (fun l => !(isBlankLine l)) = none →
      validate_header_min_cols fileLines minCols = (false, "empty_or_binary_file"))
  ∧ (∀ h, fileLines.find? (fun l => !(isBlankLine l)) = some h →
      ((validate_header_min_cols fileLines minCols).1 = false ↔
        (csvLine h).length < minCols))
  ∧ csvLine "\"a,b\",c" = ["a,b", "c"]
  ∧ (("\"a,b\",c").toList.filter (fun c => c == ',')).length = 2
  ∧ (∀ n, (csvLine (String.mk (List.replicate n ','))).length = n + 1)
  ∧ (∀ h m, fileLines.find? (fun l => !(isBlankLine l)) = some h →
      (csvLine h).length = m →
      validate_header_min_cols fileLines m = (true, "")
      ∧ (validate_header_min_cols fileLines (m + 1)).1 = false) := by
  refine ⟨?_, ?_, by decide, by decide, ?_, ?_⟩
  · intro h
    simp [validate_header_min_cols, h]
  · intro h hh
    simp only [validate_header_min_cols, hh]
    by_cases hlt : (csvLine h).length < minCols
    · simp [hlt]
    · simp [hlt]
  · intro n
    show (csvFields (String.mk (List.replicate n ',')).toList CsvState.fieldStart []).length
      = n + 1
    have ht : (String.mk (List.replicate n ',')).toList = List.replicate n ',' := rfl
    rw [ht, csvFields_comma_replicate]
    simp
  · intro h m hh hm
    constructor
    · simp [validate_header_min_cols, hh, hm]
    · simp [validate_header_min_cols, hh, hm]

/-- Concrete run of C8: a header of 79 commas parses to exactly 80 empty
columns, so it passes the validator at minimum 80 and fails at 81. -/
theorem C8_validator_witness :
    validate_header_min_cols [String.mk (List.replicate 79 ',')] 80 = (true, "")
  ∧ (validate_header_min_cols [String.mk (List.replicate 79 ',')] 81).1 = false :=
  (C8_validator [String.mk (List.replicate 79 ',')] 80).2.2.2.2.2
    (String.mk (List.replicate 79 ',')) 80 (by decide) (by decide)

/-- The non-blank lines of a streamed page body: resp.iter_lines yields ""
for a blank line and the loop skips those (`if not line: continue`). -/
def nonBlankLines (lines : List String) : List String :=
  lines.filter (fun l => !(l == ""))

/-- The body-consuming loop shared by fetch_page_to_partfile and the
sequential downloader: skip blank lines; on the first non-blank line
(`seen` is the first_nonempty_seen / header_seen flag) write it and count
one header line only when this is the first page, otherwise discard it;
write and count every later non-blank line as one data line.  Returns
(lines written, header lines written, data lines written). -/
def pageLines (isFirst : Bool) (seen : Bool) : List String → List String × Nat × Nat
  | [] => ([], 0, 0)
  | l :: rest =>
    if l = "" then pageLines isFirst seen rest
    else if seen then
      match pageLines isFirst seen rest with
      | (w, h, d) => (l :: w, h, d + 1)
    else
      match pageLines isFirst true rest with
      | (w, h, d) => if isFirst then (l :: w, h + 1, d) else (w, h, d)

theorem pageLines_seen (isFirst : Bool) (lines : List String) :
    pageLines isFirst true lines =
      (nonBlankLines lines, 0, (nonBlankLines lines).length) := by
  induction lines with
  | nil => rfl
  | cons l rest ih =>
    by_cases hl : l = ""
    · subst hl
      simpa [pageLines, nonBlankLines, List.filter_cons] using ih
    · simp [pageLines, hl, ih, nonBlankLines, List.filter_cons]

theorem pageLines_unseen (isFirst : Bool) (lines : List String) :
    pageLines isFirst false lines =
      ((if isFirst then nonBlankLines lines else (nonBlankLines lines).tail),
       (if isFirst && !(nonBlankLines lines).isEmpty then 1 else 0),
       ((nonBlankLines lines).tail).length) := by
  induction lines with
  | nil => cases isFirst <;> rfl
  | cons l rest ih =>
    by_cases hl : l = ""
    · subst hl
      simpa [pageLines, nonBlankLines, List.filter_cons] using ih
    · rw [pageLines, if_neg hl]
      simp only [Bool.false_eq_true, if_false, pageLines_seen]
      simp [nonBlankLines, List.filter_cons, hl]
      cases isFirst <;> simp

/-- The outcome of one request_with_manual_backoff call as the page
fetcher sees it: a 200 response with its streamed body lines, a non-200
final status, or an exhausted retry loop re-raising its last exception. -/
inductive HttpResult where
  | ok (bodyLines : List String)
  | httpError (status : Nat)
  | requestError (msg : String)

/-- The tuple fetch_page_to_partfile returns, plus the resulting state of
the page's fragment file (`none` when the file was deleted or never
written). -/
structure PageResult where
  ok : Bool
  msg : String
  headerLines : Nat
  dataLines : Nat
  partFile : Option (List String)

/-- Model of fetch_page_to_partfile: a failed or non-200 request fails the
page with no part file; a 200 body is consumed by the line loop into the
part file (every written line is newline-terminated, so the
truncate_trailing_partial_row call that follows is a no-op at this level);
a page with zero data lines deletes the part file and reports the
successful empty-page result. -/
def fetch_page_to_partfile (offset : Nat) (isFirst : Bool) (resp : HttpResult) : PageResult :=
  match resp with
  | HttpResult.requestError e => ⟨false, "request_error:" ++ e, 0, 0, none⟩
  | HttpResult.httpError s =>
      ⟨false, "HTTP " ++ toString s ++ " at offset " ++ toString offset, 0, 0, none⟩
  | HttpResult.ok bodyLines =>
      match pageLines isFirst false bodyLines with
      | (w, h, d) =>
        if d = 0 then ⟨true, "empty_page_no_data_rows", h, d, none⟩
        else ⟨true, "ok", h, d, some w⟩

/-- C7: on a 200 page body the fetcher skips blank lines, writes the first
non-blank line to the fragment (counting exactly one header line) iff this
is the first page and otherwise discards it, writes and counts every later
non-blank line as one data line, and when zero data lines were written it
deletes the fragment file and reports a successful empty-page result. -/
theorem C7_page_fetcher (offset : Nat) (isFirst : Bool) (bodyLines : List String) :
    (fetch_page_to_partfile offset isFirst (HttpResult.ok bodyLines)).ok = true
  ∧ (fetch_page_to_partfile offset isFirst (HttpResult.ok bodyLines)).headerLines =
      (if isFirst && !(nonBlankLines bodyLines).isEmpty then 1 else 0)
  ∧ (fetch_page_to_partfile offset isFirst (HttpResult.ok bodyLines)).dataLines =
      ((nonBlankLines bodyLines).tail).length
  ∧ (fetch_page_to_partfile offset isFirst (HttpResult.ok bodyLines)).partFile =
      (if ((nonBlankLines bodyLines).tail).length = 0 then none
       else some (if isFirst then nonBlankLines bodyLines
         else (nonBlankLines bodyLines).tail))
  ∧ (fetch_page_to_partfile offset isFirst (HttpResult.ok bodyLines)).msg =
      (if ((nonBlankLines bodyLines).tail).length = 0
       then "empty_page_no_data_rows" else "ok") := by
  simp only [fetch_page_to_partfile]
  rw [pageLines_unseen]
  by_cases hd : (nonBlankLines bodyLines).length - 1 = 0 <;>
    simp [hd, List.length_tail]

/-- What one attempt of the manual retry loop observes: session.get either
raises a requests exception or returns a response with a status code. -/
inductive AttemptResult where
  | exc (msg : String)
  | resp (status : Nat)

/-- How request_with_manual_backoff fails when every attempt is used up:
it re-raises the last stored exception, or raises the fixed-message
RuntimeError ("request_with_manual_backoff exhausted without response")
when no attempt raised an exception. -/
inductive ReqFailure where
  | raisedExc (msg : String)
  | exhaustedNoResponse

/-- The attempt loop of request_with_manual_backoff over the outcomes of
its successive attempts (one list entry per attempt; the source iterates
attempt = 1..MANUAL_ATTEMPTS): an exception is stored in last_exc and the
loop continues; a 403/429 response continues without touching last_exc;
any other response is returned at once. -/
def rwmbLoop : List AttemptResult → Option String → Except ReqFailure Nat
  | [], some e => Except.error (ReqFailure.raisedExc e)
  | [], none => Except.error ReqFailure.exhaustedNoResponse
  | a :: rest, lastExc =>
    match a with
    | AttemptResult.exc e => rwmbLoop rest (some e)
    | AttemptResult.resp s =>
      if s = 403 ∨ s = 429 then rwmbLoop rest lastExc
      else Except.ok s

/-- Model of request_with_manual_backoff, `attempts` holding what each of
its MANUAL_ATTEMPTS session.get calls would observe. -/
def request_with_manual_backoff (attempts : List AttemptResult) : Except ReqFailure Nat :=
  rwmbLoop attempts none

/-- An attempt that keeps the retry loop going: a transport exception or a
403/429 throttle response. -/
def attemptExhausts : AttemptResult → Bool
  | AttemptResult.exc _ => true
  | AttemptResult.resp s => s == 403 || s == 429

/-- The last exception among the attempts: the loop's final last_exc. -/
def lastExcOf : List AttemptResult → Option String
  | [] => none
  | AttemptResult.exc e :: rest => (lastExcOf rest).orElse (fun _ => some e)
  | AttemptResult.resp _ :: rest => lastExcOf rest

theorem rwmbLoop_exhausted (attempts : List AttemptResult) :
    ∀ le, (∀ a ∈ attempts, attemptExhausts a = true) →
    rwmbLoop attempts le =
      (match (lastExcOf attempts).orElse (fun _ => le) with
       | some e => Except.error (ReqFailure.raisedExc e)
       | none => Except.error ReqFailure.exhaustedNoResponse) := by
  induction attempts with
  | nil =>
    intro le hall
    cases le <;> rfl
  | cons a rest ih =>
    intro le hall
    have hrest : ∀ x ∈ rest, attemptExhausts x = true :=
      fun x hx => hall x (List.mem_cons_of_mem _ hx)
    cases a with
    | exc e =>
      have h1 := ih (some e) hrest
      simp only [rwmbLoop, lastExcOf, h1]
      cases lastExcOf rest <;> rfl
    | resp s =>
      have hs : s = 403 ∨ s = 429 := by
        have := hall (AttemptResult.resp s) (List.mem_cons_self _ _)
        simp [attemptExhausts] at this
        omega
      have h1 := ih le hrest
      simp only [rwmbLoop, lastExcOf, if_pos hs, h1]

/-- C6 counterexample: when every attempt observes an HTTP 403 response
the call raises the fixed-message RuntimeError, an error value that
carries neither the last observed response status nor an exception. -/
theorem C6_counterexample :
    request_with_manual_backoff (List.replicate MANUAL_ATTEMPTS (AttemptResult.resp 403))
      = Except.error ReqFailure.exhaustedNoResponse := by
  rfl

/-- C6 (amended): when every retry attempt is exhausted by a transport
exception or a 403/429 throttle response, request_with_manual_backoff
never returns a response (so an exhausted request is never reported as an
empty page); it raises the last stored exception when some attempt raised
one, and otherwise the generic exhaustion error that carries no status. -/
theorem C6_exhaustion (attempts : List AttemptResult)
    (hall : ∀ a ∈ attempts, attemptExhausts a = true) :
    request_with_manual_backoff attempts =
      (match lastExcOf attempts with
       | some e => Except.error (ReqFailure.raisedExc e)
       | none => Except.error ReqFailure.exhaustedNoResponse)
  ∧ ∀ s, request_with_manual_backoff attempts ≠ Except.ok s := by
  have h1 := rwmbLoop_exhausted attempts none hall
  have h2 : (lastExcOf attempts).orElse (fun _ => none) = lastExcOf attempts := by
    cases lastExcOf attempts <;> rfl
  rw [h2] at h1
  refine ⟨h1, ?_⟩
  intro s
  show rwmbLoop attempts none ≠ Except.ok s
  rw [h1]
  cases lastExcOf attempts <;> simp

/-- Concrete run of C6 (amended): two exceptions among the throttle
responses; the raised error is the last exception, "timeout". -/
theorem C6_exhaustion_witness :
    request_with_manual_backoff [AttemptResult.exc "conn reset", AttemptResult.resp 403,
      AttemptResult.resp 429, AttemptResult.exc "timeout", AttemptResult.resp 403]
      = Except.error (ReqFailure.raisedExc "timeout") :=
  (C6_exhaustion [AttemptResult.exc "conn reset", AttemptResult.resp 403,
      AttemptResult.resp 429, AttemptResult.exc "timeout", AttemptResult.resp 403]
    (by decide)).1.trans (by rfl)

/-- Model of the session pool sizing in main: pool_size =
max(args.id_workers, args.page_workers) * 3, handed to make_session as
both pool_connections and pool_maxsize of the shared HTTPAdapter. -/
def pool_size (idWorkers pageWorkers : Nat) : Nat :=
  max idWorkers pageWorkers * 3

/-- C9 counterexample: with the default 10 entity-level and 10 page-level
workers the configured pool holds 30 connections, fewer than the product
10 * 10 = 100. -/
theorem C9_counterexample :
    pool_size 10 10 = 30 ∧ pool_size 10 10 < 10 * 10 := by decide

theorem pool_bound_aux (a b : Nat) (hab : a ≤ b) : a * b ≤ b * 3 ↔ a ≤ 3 := by
  constructor
  · intro h
    by_contra h4
    have hb : 4 ≤ b := by omega
    have hup : b * 4 ≤ a * b := by
      have : 4 * b ≤ a * b := Nat.mul_le_mul_right b (by omega)
      calc b * 4 = 4 * b := Nat.mul_comm b 4
      _ ≤ a * b := this
    linarith
  · intro h
    have : a * b ≤ 3 * b := Nat.mul_le_mul_right b h
    calc a * b ≤ 3 * b := this
    _ = b * 3 := Nat.mul_comm 3 b

/-- C9 (amended): the pool is sized to three times the larger of the two
worker counts, which reaches the product of the two counts exactly when
the smaller count is at most 3 (so the claimed product bound fails for
example at the defaults 10 and 10). -/
theorem C9_pool_size (idWorkers pageWorkers : Nat) :
    pool_size idWorkers pageWorkers = 3 * max idWorkers pageWorkers
  ∧ (idWorkers * pageWorkers ≤ pool_size idWorkers pageWorkers ↔
      min idWorkers pageWorkers ≤ 3) := by
  constructor
  · rw [pool_size, Nat.mul_comm]
  · rw [pool_size]
    rcases Nat.le_total idWorkers pageWorkers with hab | hab
    · rw [Nat.max_eq_right hab, Nat.min_eq_left hab]
      exact pool_bound_aux idWorkers pageWorkers hab
    · rw [Nat.max_eq_left hab, Nat.min_eq_right hab]
      rw [Nat.mul_comm]
      exact pool_bound_aux pageWorkers idWorkers hab

/-- A filesystem event on an entity's final path: merge_parts writes the
merged bytes directly to the final path, the sequential path renames its
temp .part file onto the final path, and a failed check unlinks it. -/
inductive FsEvent where
  | writeFinal (content : List String)
  | renameToFinal (content : List String)
  | unlinkFinal
deriving DecidableEq

/-- The file at the final path after a list of events, starting from an
absent file. -/
def finalFileAfter (events : List FsEvent) : Option (List String) :=
  events.foldl (fun _st e =>
    match e with
    | FsEvent.writeFinal c => some c
    | FsEvent.renameToFinal c => some c
    | FsEvent.unlinkFinal => none) none

/-- Result of one download_small_sequential run: the offsets requested in
order, the returned (success, detail) pair, the final state of the temp
.part file, and the events on the entity's final path. -/
structure SeqResult where
  offsetsRequested : List Nat
  success : Bool
  detail : String
  tmpFile : Option (List String)
  finalEvents : List FsEvent

/-- The post-loop tail of download_small_sequential: a run that never
wrote a header or accumulated zero data rows deletes the temp file and
fails with no_results_header_only; otherwise the temp file is validated,
deleted on a failed validation, and renamed onto the final path on
success. -/
def seqFinish (reqs : List Nat) (wroteHeader : Bool) (total : Nat)
    (tmp : List String) : SeqResult :=
  if wroteHeader = false ∨ total = 0 then
    ⟨reqs, false, "no_results_header_only", none, []⟩
  else if (validate_header_min_cols tmp EXPECTED_MIN_COLS).1 then
    ⟨reqs, true, "downloaded_small_ok_rows~" ++ toString total, none,
      [FsEvent.renameToFinal tmp]⟩
  else
    ⟨reqs, false,
      "validation_failed:" ++ (validate_header_min_cols tmp EXPECTED_MIN_COLS).2,
      none, []⟩

/-- The paging loop of download_small_sequential over the responses the
server returns at offsets 0, PAGE_LIMIT, 2*PAGE_LIMIT, ...; past the end
of `responses` the endpoint returns an empty 200 body (its no-more-data
signal), which the loop maps through the same page-processing step.  The
page at offset 0 opens the temp file in write mode and is the only page
whose header line is kept; each page's data lines are appended and
counted, and the loop stops at the first page with zero data lines.  A
request exception or non-200 status deletes the temp file and fails the
run at once. -/
def seqGo : List HttpResult → Nat → Bool → Nat → List String → List Nat → SeqResult
  | [], offset, wroteHeader, total, tmp, reqs =>
    seqFinish (reqs ++ [offset]) wroteHeader total (if offset = 0 then [] else tmp)
  | resp :: rest, offset, wroteHeader, total, tmp, reqs =>
    match resp with
    | HttpResult.requestError e =>
      ⟨reqs ++ [offset], false, "request_error:" ++ e, none, []⟩
    | HttpResult.httpError s =>
      ⟨reqs ++ [offset], false,
        "HTTP " ++ toString s ++ " at offset " ++ toString offset, none, []⟩
    | HttpResult.ok bodyLines =>
      match pageLines (offset == 0) false bodyLines with
      | (w, h, d) =>
        if d = 0 then
          seqFinish (reqs ++ [offset]) (wroteHeader || (h == 1)) total
            ((if offset = 0 then [] else tmp) ++ w)
        else
          seqGo rest (offset + PAGE_LIMIT) (wroteHeader || (h == 1)) (total + d)
            ((if offset = 0 then [] else tmp) ++ w) (reqs ++ [offset])

/-- Model of download_small_sequential. -/
def download_small_sequential (responses : List HttpResult) : SeqResult :=
  seqGo responses 0 false 0 [] []

/-- Number of pages the sequential loop consumes before the terminating
empty page: the index of the first body with no data line (all of them
when every page has data; the virtual page after the list is empty). -/
def seqPagesTaken : List (List String) → Nat
  | [] => 0
  | b :: rest =>
    if ((nonBlankLines b).tail).length = 0 then 0 else 1 + seqPagesTaken rest

/-- The data rows the sequential loop accumulates up to its first empty
page. -/
def seqTotalRows : List (List String) → Nat
  | [] => 0
  | b :: rest =>
    if ((nonBlankLines b).tail).length = 0 then 0
    else ((nonBlankLines b).tail).length + seqTotalRows rest

/-- The lines the sequential loop accumulates in its temp file: the full
non-blank lines of page 0 (header kept), then each later page's non-blank
lines with its repeated header discarded, stopping at the first page with
no data lines. -/
def seqFileContent : List (List String) → Bool → List String
  | [], _ => []
  | b :: rest, isFirst =>
    if ((nonBlankLines b).tail).length = 0 then
      (if isFirst then nonBlankLines b else (nonBlankLines b).tail)
    else
      (if isFirst then nonBlankLines b else (nonBlankLines b).tail)
        ++ seqFileContent rest false

/-- Whether the sequential loop ever writes a header line: page 0 has a
non-blank line (later pages never write one). -/
def seqWroteHeader : List (List String) → Bool
  | [] => false
  | b :: _ => !(nonBlankLines b).isEmpty

theorem validate_fst_true (f : List String) (m : Nat)
    (h : (validate_header_min_cols f m).1 = true) :
    validate_header_min_cols f m = (true, "") := by
  rw [validate_header_min_cols] at h ⊢
  cases hf : f.find? (fun l => !(isBlankLine l)) with
  | none =>
    simp only [hf] at h
    simp at h
  | some hd =>
    simp only [hf] at h
    by_cases hl : (csvLine hd).length < m
    · simp [hl] at h
    · simp [hl]

theorem seqFinish_offsets (reqs : List Nat) (w : Bool) (t : Nat) (tmp : List String) :
    (seqFinish reqs w t tmp).offsetsRequested = reqs := by
  rw [seqFinish]
  split_ifs <;> rfl

theorem seqFinish_tmpFile (reqs : List Nat) (w : Bool) (t : Nat) (tmp : List String) :
    (seqFinish reqs w t tmp).tmpFile = none := by
  rw [seqFinish]
  split_ifs <;> rfl

theorem seqFinish_success (reqs : List Nat) (w : Bool) (t : Nat) (tmp : List String)
    (h : (seqFinish reqs w t tmp).success = true) :
    seqFinish reqs w t tmp =
      ⟨reqs, true, "downloaded_small_ok_rows~" ++ toString t, none,
        [FsEvent.renameToFinal tmp]⟩
    ∧ validate_header_min_cols tmp EXPECTED_MIN_COLS = (true, "") := by
  rw [seqFinish] at h ⊢
  by_cases h1 : w = false ∨ t = 0
  · rw [if_pos h1] at h; simp at h
  · rw [if_neg h1] at h ⊢
    by_cases h2 : (validate_header_min_cols tmp EXPECTED_MIN_COLS).1 = true
    · rw [if_pos h2]
      exact ⟨rfl, validate_fst_true _ _ h2⟩
    · rw [Bool.not_eq_true] at h2
      rw [if_neg (by simp [h2])] at h
      simp at h

theorem seqFinish_no_results (reqs : List Nat) (w : Bool) (t : Nat) (tmp : List String)
    (h : w = false ∨ t = 0) :
    seqFinish reqs w t tmp = ⟨reqs, false, "no_results_header_only", none, []⟩ := by
  rw [seqFinish, if_pos h]

theorem seqGo_tail (bodies : List (List String)) :
    ∀ (i : Nat) (wrote : Bool) (total : Nat) (tmp : List String) (reqs : List Nat),
    1 ≤ i →
    seqGo (bodies.map HttpResult.ok) (i * PAGE_LIMIT) wrote total tmp reqs =
      seqFinish
        (reqs ++ (List.range' i (seqPagesTaken bodies + 1)).map (fun j => j * PAGE_LIMIT))
        wrote (total + seqTotalRows bodies) (tmp ++ seqFileContent bodies false) := by
  induction bodies with
  | nil =>
    intro i wrote total tmp reqs hi
    simp only [List.map_nil, seqGo]
    have h0 : ¬ (i * PAGE_LIMIT = 0) := by
      simp only [PAGE_LIMIT]
      omega
    rw [if_neg h0]
    simp [seqPagesTaken, seqTotalRows, seqFileContent]
  | cons b rest ih =>
    intro i wrote total tmp reqs hi
    simp only [List.map_cons, seqGo]
    have hoff : (i * PAGE_LIMIT == 0) = false := by
      simp only [PAGE_LIMIT]
      simp only [beq_eq_false_iff_ne, ne_eq]
      omega
    have hoff2 : ¬ (i * PAGE_LIMIT = 0) := by
      simp only [PAGE_LIMIT]
      omega
    rw [hoff, pageLines_unseen]
    simp only [Bool.false_and, Bool.false_eq_true, if_false, if_neg hoff2]
    by_cases hd : ((nonBlankLines b).tail).length = 0
    · rw [if_pos hd]
      simp only [seqPagesTaken, seqTotalRows, seqFileContent, if_pos hd]
      simp [List.range'_one]
    · rw [if_neg hd]
      have hstep : i * PAGE_LIMIT + PAGE_LIMIT = (i + 1) * PAGE_LIMIT := by ring
      rw [hstep]
      rw [ih (i + 1) (wrote || (0 == 1)) (total + ((nonBlankLines b).tail).length)
        (tmp ++ (nonBlankLines b).tail) (reqs ++ [i * PAGE_LIMIT]) (by omega)]
      simp only [seqPagesTaken, seqTotalRows, seqFileContent, if_neg hd]
      have hk : 1 + seqPagesTaken rest + 1 = (seqPagesTaken rest + 1) + 1 := by omega
      conv_rhs => rw [hk, List.range'_succ]
      simp only [List.map_cons]
      simp [List.append_assoc, Nat.add_assoc]

theorem download_small_eq (bodies : List (List String)) :
    download_small_sequential (bodies.map HttpResult.ok) =
      seqFinish ((List.range (seqPagesTaken bodies + 1)).map (fun j => j * PAGE_LIMIT))
        (seqWroteHeader bodies) (seqTotalRows bodies) (seqFileContent bodies true) := by
  cases bodies with
  | nil =>
    show seqGo [] 0 false 0 [] [] = _
    simp only [seqGo, if_pos rfl, seqPagesTaken, seqTotalRows, seqFileContent, seqWroteHeader]
    rw [show List.map (fun j => j * PAGE_LIMIT) (List.range (0 + 1)) = [0] from rfl]
    simp
  | cons b rest =>
    show seqGo (HttpResult.ok b :: rest.map HttpResult.ok) 0 false 0 [] [] = _
    simp only [seqGo]
    rw [show ((0 : Nat) == 0) = true from rfl, pageLines_unseen]
    simp only [Bool.true_and, if_pos rfl, List.nil_append, Bool.false_or]
    by_cases hd : ((nonBlankLines b).tail).length = 0
    · rw [if_pos hd]
      simp only [seqPagesTaken, seqTotalRows, seqFileContent, seqWroteHeader, if_pos hd]
      rw [show List.map (fun j => j * PAGE_LIMIT) (List.range (0 + 1)) = [0] from rfl]
      cases he : (nonBlankLines b).isEmpty <;> simp [he]
    · rw [if_neg hd]
      rw [show (0 : Nat) + PAGE_LIMIT = 1 * PAGE_LIMIT by ring]
      rw [seqGo_tail rest 1 _ _ _ _ (le_refl 1)]
      simp only [seqPagesTaken, seqTotalRows, seqFileContent, seqWroteHeader, if_neg hd]
      have hk : 1 + seqPagesTaken rest + 1 = (seqPagesTaken rest + 1) + 1 := by omega
      conv_rhs => rw [hk, List.range_eq_range', List.range'_succ]
      simp only [List.map_cons, Nat.zero_mul, Nat.zero_add]
      cases he : (nonBlankLines b).isEmpty <;> simp [he]

/-- C2: the sequential downloader requests offsets 0, PAGE_LIMIT,
2*PAGE_LIMIT, ... one page at a time, stopping exactly at the first page
with zero data lines; it accumulates one growing temp file (write mode on
page 0, append after; the header is kept only from page 0), which on
success is validated and renamed onto the final path; and a run that
never wrote a header or accumulated zero data rows fails with
no_results_header_only and deletes the temp file. -/
theorem C2_sequential (bodies : List (List String)) :
    (download_small_sequential (bodies.map HttpResult.ok)).offsetsRequested =
      (List.range (seqPagesTaken bodies + 1)).map (fun j => j * PAGE_LIMIT)
  ∧ ((download_small_sequential (bodies.map HttpResult.ok)).success = true →
      (download_small_sequential (bodies.map HttpResult.ok)).finalEvents =
        [FsEvent.renameToFinal (seqFileContent bodies true)]
      ∧ validate_header_min_cols (seqFileContent bodies true) EXPECTED_MIN_COLS
          = (true, ""))
  ∧ ((seqWroteHeader bodies = false ∨ seqTotalRows bodies = 0) →
      download_small_sequential (bodies.map HttpResult.ok) =
        ⟨(List.range (seqPagesTaken bodies + 1)).map (fun j => j * PAGE_LIMIT),
          false, "no_results_header_only", none, []⟩)
  ∧ (download_small_sequential (bodies.map HttpResult.ok)).tmpFile = none := by
  rw [download_small_eq]
  refine ⟨seqFinish_offsets _ _ _ _, ?_, ?_, seqFinish_tmpFile _ _ _ _⟩
  · intro hs
    obtain ⟨heq, hv⟩ := seqFinish_success _ _ _ _ hs
    rw [heq]
    exact ⟨rfl, hv⟩
  · intro hcond
    exact seqFinish_no_results _ _ _ _ hcond

/-- A header line of 79 commas: exactly 80 empty CSV columns. -/
def header80 : String := String.mk (List.replicate 79 ',')

/-- A page body carrying the header and 3000 data rows (an entity with
expected_row_count 3000 under page size 5000). -/
def body3000 : List String := header80 :: List.replicate 3000 "1,2"

theorem nonBlankLines_body3000 : nonBlankLines body3000 = body3000 := by
  rw [nonBlankLines]
  apply List.filter_eq_self.mpr
  intro a ha
  rw [body3000] at ha
  rcases List.mem_cons.mp ha with h | h
  · subst h
    decide
  · rw [List.eq_of_mem_replicate h]
    decide

theorem body3000_tail_length : (nonBlankLines body3000).tail.length = 3000 := by
  rw [nonBlankLines_body3000, show body3000.tail = List.replicate 3000 "1,2" from rfl,
    List.length_replicate]

theorem seq_cex_taken : seqPagesTaken [body3000, [header80]] = 1 := by
  have h2 : ((nonBlankLines [header80]).tail).length = 0 := by decide
  simp only [seqPagesTaken, body3000_tail_length, h2]
  norm_num

theorem seq_cex_wrote : seqWroteHeader [body3000, [header80]] = true := by
  simp only [seqWroteHeader, nonBlankLines_body3000]
  rw [show body3000.isEmpty = false from rfl]
  rfl

theorem seq_cex_total : seqTotalRows [body3000, [header80]] = 3000 := by
  rw [seqTotalRows, if_neg (by rw [body3000_tail_length]; norm_num)]
  rw [seqTotalRows, if_pos (by decide)]
  rw [body3000_tail_length]

theorem seq_cex_content : seqFileContent [body3000, [header80]] true = body3000 := by
  have h4 : seqFileContent [[header80]] false = [] := by decide
  rw [seqFileContent, if_neg (by rw [body3000_tail_length]; norm_num)]
  rw [h4, if_pos rfl, nonBlankLines_body3000, List.append_nil]

theorem seq_cex_validate :
    validate_header_min_cols body3000 EXPECTED_MIN_COLS = (true, "") := by
  have hfind : body3000.find? (fun l => !(isBlankLine l)) = some header80 := by
    rw [show body3000 = header80 :: List.replicate 3000 "1,2" from rfl, List.find?_cons]
    rw [show (!(isBlankLine header80)) = true from by decide]
  rw [validate_header_min_cols]
  simp only [hfind]
  rw [show csvLine header80 = List.replicate 79 "" ++ [""] from csvFields_comma_replicate 79]
  simp [EXPECTED_MIN_COLS]

theorem seq_cex_success :
    (download_small_sequential ([body3000, [header80]].map HttpResult.ok)).success
      = true := by
  rw [download_small_eq, seqFinish, seq_cex_wrote, seq_cex_total]
  rw [if_neg (by norm_num)]
  rw [seq_cex_content, seq_cex_validate]
  norm_num

/-- Concrete run of C2: a first page of 3000 rows forces a second request
at offset 5000; that page returns the bare header (zero data rows) and
only then is the file renamed onto the final path. -/
theorem C2_sequential_witness :
    (download_small_sequential ([body3000, [header80]].map HttpResult.ok)).offsetsRequested
      = [0, 5000]
  ∧ (download_small_sequential ([body3000, [header80]].map HttpResult.ok)).finalEvents
      = [FsEvent.renameToFinal (seqFileContent [body3000, [header80]] true)] := by
  refine ⟨?_, ((C2_sequential [body3000, [header80]]).2.1 seq_cex_success).1⟩
  rw [(C2_sequential [body3000, [header80]]).1]
  rw [seq_cex_taken]
  rfl

/-- One page fetch the parallel path submits: its page index, its request
offset, and whether it is the header-carrying first page. -/
structure PageSubmission where
  pageIndex : Nat
  offset : Nat
  isFirst : Bool

/-- pages = int(math.ceil(expected_total / PAGE_LIMIT)), as the natural
ceiling division (the totals in play are far below any float rounding). -/
def bigPages (expectedTotal : Nat) : Nat :=
  (expectedTotal + PAGE_LIMIT - 1) / PAGE_LIMIT

/-- The page fetches download_big_parallel_pages submits: one per index i
in 0..pages-1, at offset i*PAGE_LIMIT, page 0 marked is_first_page. -/
def bigSubmissions (pages : Nat) : List PageSubmission :=
  (List.range pages).map (fun i => ⟨i, i * PAGE_LIMIT, i == 0⟩)

/-- The fetch result of page i: fetch_page_to_partfile at offset
i*PAGE_LIMIT with is_first_page exactly for i = 0, on what the network
returns for that page. -/
def bigFetch (respAt : Nat → HttpResult) (i : Nat) : PageResult :=
  fetch_page_to_partfile (i * PAGE_LIMIT) (i == 0) (respAt i)

/-- Model of merge_parts: concatenate the existing, non-empty fragment
files in the given (ascending page index) order directly into the final
path; then an empty merge fails as merged_empty, a merge of fewer than
two lines is deleted and fails as header-only, a failed header validation
deletes the merged file, and otherwise the merge stands. -/
def merge_parts (parts : List (Option (List String))) : Bool × String × List FsEvent :=
  if ((parts.map (fun p => p.getD [])).flatten).isEmpty then
    (false, "merged_empty", [FsEvent.writeFinal ((parts.map (fun p => p.getD [])).flatten)])
  else if ((parts.map (fun p => p.getD [])).flatten).length < 2 then
    (false, "no_results_header_only_after_merge",
      [FsEvent.writeFinal ((parts.map (fun p => p.getD [])).flatten), FsEvent.unlinkFinal])
  else if (validate_header_min_cols ((parts.map (fun p => p.getD [])).flatten)
      EXPECTED_MIN_COLS).1 then
    (true, "merged_ok", [FsEvent.writeFinal ((parts.map (fun p => p.getD [])).flatten)])
  else
    (false, "validation_failed:" ++ (validate_header_min_cols
        ((parts.map (fun p => p.getD [])).flatten) EXPECTED_MIN_COLS).2,
      [FsEvent.writeFinal ((parts.map (fun p => p.getD [])).flatten), FsEvent.unlinkFinal])

/-- Rendering of the first few hard failures into the failure detail. -/
def describeFails (fs : List (Nat × String)) : String :=
  String.intercalate ", " (fs.map (fun f => "(" ++ toString f.1 ++ ", " ++ f.2 ++ ")"))

/-- Result of one download_big_parallel_pages run. -/
structure BigResult where
  submissions : List PageSubmission
  success : Bool
  detail : String
  finalEvents : List FsEvent

/-- Model of download_big_parallel_pages.  `respAt i` is what the network
returns for page i; `order` is the order in which the page futures
complete (as_completed), a permutation of the page indices: the total row
count and the hard-failure list are accumulated in completion order,
while the fragment list handed to merge_parts is indexed by page number.
A non-positive page count is a configuration failure; any hard page
failure fails the run before any merge; a run whose pages were all empty
fails as no_results_all_pages_empty; otherwise the fragments are merged
in ascending page-index order. -/
def download_big_parallel_pages (expectedTotal : Nat) (respAt : Nat → HttpResult)
    (order : List Nat) : BigResult :=
  if bigPages expectedTotal = 0 then ⟨[], false, "bad_expected_total", []⟩
  else if ((order.filterMap (fun i =>
      if (bigFetch respAt i).ok then none
      else some (i, (bigFetch respAt i).msg))).isEmpty) = false then
    ⟨bigSubmissions (bigPages expectedTotal), false,
      "page_download_failed:" ++ describeFails ((order.filterMap (fun i =>
        if (bigFetch respAt i).ok then none
        else some (i, (bigFetch respAt i).msg))).take 3), []⟩
  else if (order.map (fun i => (bigFetch respAt i).dataLines)).sum = 0 then
    ⟨bigSubmissions (bigPages expectedTotal), false, "no_results_all_pages_empty", []⟩
  else if (merge_parts ((List.range (bigPages expectedTotal)).map
      (fun i => (bigFetch respAt i).partFile))).1 then
    ⟨bigSubmissions (bigPages expectedTotal), true,
      "downloaded_big_ok_pages=" ++ toString (bigPages expectedTotal)
        ++ "_rows~" ++ toString ((order.map (fun i => (bigFetch respAt i).dataLines)).sum),
      (merge_parts ((List.range (bigPages expectedTotal)).map
        (fun i => (bigFetch respAt i).partFile))).2.2⟩
  else
    ⟨bigSubmissions (bigPages expectedTotal), false,
      (merge_parts ((List.range (bigPages expectedTotal)).map
        (fun i => (bigFetch respAt i).partFile))).2.1,
      (merge_parts ((List.range (bigPages expectedTotal)).map
        (fun i => (bigFetch respAt i).partFile))).2.2⟩

theorem merge_parts_ok (parts : List (Option (List String)))
    (h : (merge_parts parts).1 = true) :
    merge_parts parts = (true, "merged_ok",
      [FsEvent.writeFinal ((parts.map (fun p => p.getD [])).flatten)])
    ∧ 2 ≤ ((parts.map (fun p => p.getD [])).flatten).length
    ∧ validate_header_min_cols ((parts.map (fun p => p.getD [])).flatten)
        EXPECTED_MIN_COLS = (true, "") := by
  rw [merge_parts] at h ⊢
  by_cases h1 : ((parts.map (fun p => p.getD [])).flatten).isEmpty = true
  · rw [if_pos h1] at h
    simp at h
  · rw [if_neg h1] at h ⊢
    by_cases h2 : ((parts.map (fun p => p.getD [])).flatten).length < 2
    · rw [if_pos h2] at h
      simp at h
    · rw [if_neg h2] at h ⊢
      by_cases h3 : (validate_header_min_cols ((parts.map (fun p => p.getD [])).flatten)
          EXPECTED_MIN_COLS).1 = true
      · rw [if_pos h3]
        exact ⟨rfl, by omega, validate_fst_true _ _ h3⟩
      · rw [if_neg h3] at h
        simp at h

theorem merge_parts_final (parts : List (Option (List String)))
    (hne : ((parts.map (fun p => p.getD [])).flatten) ≠ []) :
    ((merge_parts parts).1 = true
      ∧ finalFileAfter (merge_parts parts).2.2 =
          some ((parts.map (fun p => p.getD [])).flatten)
      ∧ 2 ≤ ((parts.map (fun p => p.getD [])).flatten).length
      ∧ validate_header_min_cols ((parts.map (fun p => p.getD [])).flatten)
          EXPECTED_MIN_COLS = (true, ""))
  ∨ ((merge_parts parts).1 = false ∧ finalFileAfter (merge_parts parts).2.2 = none) := by
  rw [merge_parts]
  by_cases h1 : ((parts.map (fun p => p.getD [])).flatten).isEmpty = true
  · exact absurd (by simpa using h1) hne
  · rw [if_neg h1]
    by_cases h2 : ((parts.map (fun p => p.getD [])).flatten).length < 2
    · rw [if_pos h2]
      right
      exact ⟨rfl, rfl⟩
    · rw [if_neg h2]
      by_cases h3 : (validate_header_min_cols ((parts.map (fun p => p.getD [])).flatten)
          EXPECTED_MIN_COLS).1 = true
      · rw [if_pos h3]
        left
        exact ⟨rfl, rfl, by omega, validate_fst_true _ _ h3⟩
      · rw [if_neg h3]
        right
        exact ⟨rfl, rfl⟩

theorem perm_isEmpty_eq {α : Type _} {a b : List α} (h : a.Perm b) :
    a.isEmpty = b.isEmpty := by
  have hl := h.length_eq
  cases a <;> cases b <;> simp_all

theorem download_big_order_inv (e : Nat) (respAt : Nat → HttpResult)
    (order : List Nat) (hord : order.Perm (List.range (bigPages e))) :
    (download_big_parallel_pages e respAt order).success =
      (download_big_parallel_pages e respAt (List.range (bigPages e))).success
  ∧ (download_big_parallel_pages e respAt order).finalEvents =
      (download_big_parallel_pages e respAt (List.range (bigPages e))).finalEvents := by
  have hsum : (order.map (fun i => (bigFetch respAt i).dataLines)).sum =
      ((List.range (bigPages e)).map (fun i => (bigFetch respAt i).dataLines)).sum :=
    (hord.map _).sum_eq
  have hfm : (order.filterMap (fun i =>
      if (bigFetch respAt i).ok then none
      else some (i, (bigFetch respAt i).msg))).isEmpty =
      ((List.range (bigPages e)).filterMap (fun i =>
        if (bigFetch respAt i).ok then none
        else some (i, (bigFetch respAt i).msg))).isEmpty :=
    perm_isEmpty_eq (hord.filterMap _)
  rw [download_big_parallel_pages, download_big_parallel_pages, hfm, hsum]
  split_ifs <;> exact ⟨rfl, rfl⟩

theorem bigFetch_data_part (respAt : Nat → HttpResult) (i : Nat)
    (h : (bigFetch respAt i).dataLines ≠ 0) :
    ∃ w, (bigFetch respAt i).partFile = some w ∧ w ≠ [] := by
  rw [bigFetch] at h ⊢
  cases hr : respAt i with
  | requestError e =>
    rw [hr] at h
    simp [fetch_page_to_partfile] at h
  | httpError s =>
    rw [hr] at h
    simp [fetch_page_to_partfile] at h
  | ok lines =>
    rw [hr] at h
    by_cases hd : ((nonBlankLines lines).tail).length = 0
    · exfalso
      apply h
      simp only [fetch_page_to_partfile, pageLines_unseen, hd]
      simp
    · have htl : (nonBlankLines lines).tail ≠ [] := by
        intro hc
        rw [hc] at hd
        simp at hd
      refine ⟨if (i == 0) then nonBlankLines lines else (nonBlankLines lines).tail, ?_, ?_⟩
      · simp only [fetch_page_to_partfile, pageLines_unseen]
        rw [if_neg hd]
      · by_cases hi : (i == 0) = true
        · rw [if_pos hi]
          intro hc
          apply htl
          rw [hc]
          rfl
        · rw [if_neg hi]
          exact htl

/-- C1: the parallel downloader computes page_count as the ceiling of
expected_row_count / PAGE_LIMIT (characterized by the two bounds below),
failing with the bad_expected_total configuration error when the computed
page count is not positive; a task above the page size needs at least two
pages; it submits one page fetch per index i in 0..page_count-1 at offset
i*PAGE_LIMIT with exactly page 0 marked is_first_page; and the outcome
and the merged artifact are those of the ascending page-index merge,
whatever order the pages complete in. -/
theorem C1_parallel_plan (e : Nat) (respAt : Nat → HttpResult) (order : List Nat)
    (hord : order.Perm (List.range (bigPages e))) :
    (e ≤ bigPages e * PAGE_LIMIT ∧ bigPages e * PAGE_LIMIT < e + PAGE_LIMIT)
  ∧ (bigPages e = 0 →
      download_big_parallel_pages e respAt order = ⟨[], false, "bad_expected_total", []⟩)
  ∧ (PAGE_LIMIT < e → 2 ≤ bigPages e)
  ∧ (bigPages e ≠ 0 →
      (download_big_parallel_pages e respAt order).submissions
        = bigSubmissions (bigPages e))
  ∧ (bigSubmissions (bigPages e)).map (fun s => s.pageIndex) = List.range (bigPages e)
  ∧ (∀ s ∈ bigSubmissions (bigPages e),
      s.offset = s.pageIndex * PAGE_LIMIT ∧ (s.isFirst = true ↔ s.pageIndex = 0))
  ∧ (download_big_parallel_pages e respAt order).success =
      (download_big_parallel_pages e respAt (List.range (bigPages e))).success
  ∧ (download_big_parallel_pages e respAt order).finalEvents =
      (download_big_parallel_pages e respAt (List.range (bigPages e))).finalEvents
  ∧ ((download_big_parallel_pages e respAt order).success = true →
      (download_big_parallel_pages e respAt order).finalEvents =
        [FsEvent.writeFinal ((((List.range (bigPages e)).map
          (fun i => (bigFetch respAt i).partFile)).map (fun p => p.getD [])).flatten)]) := by
  refine ⟨?_, ?_, ?_, ?_, ?_, ?_, (download_big_order_inv e respAt order hord).1,
    (download_big_order_inv e respAt order hord).2, ?_⟩
  · simp only [bigPages, PAGE_LIMIT]
    omega
  · intro h
    rw [download_big_parallel_pages, if_pos h]
  · simp only [bigPages, PAGE_LIMIT]
    omega
  · intro h0
    rw [download_big_parallel_pages, if_neg h0]
    split_ifs <;> rfl
  · rw [bigSubmissions, List.map_map]
    show List.map (fun i => i) (List.range (bigPages e)) = List.range (bigPages e)
    simp
  · intro s hs
    rw [bigSubmissions] at hs
    rcases List.mem_map.mp hs with ⟨i, hi, rfl⟩
    exact ⟨rfl, by simp⟩
  · intro hs
    rw [download_big_parallel_pages] at hs ⊢
    by_cases h0 : bigPages e = 0
    · rw [if_pos h0] at hs
      simp at hs
    · rw [if_neg h0] at hs ⊢
      by_cases hf : ((order.filterMap (fun i =>
          if (bigFetch respAt i).ok then none
          else some (i, (bigFetch respAt i).msg))).isEmpty) = false
      · rw [if_pos hf] at hs
        simp at hs
      · rw [if_neg hf] at hs ⊢
        by_cases ht : (order.map (fun i => (bigFetch respAt i).dataLines)).sum = 0
        · rw [if_pos ht] at hs
          simp at hs
        · rw [if_neg ht] at hs ⊢
          by_cases hm : (merge_parts ((List.range (bigPages e)).map
              (fun i => (bigFetch respAt i).partFile))).1 = true
          · rw [if_pos hm]
            show (merge_parts _).2.2 = _
            rw [(merge_parts_ok _ hm).1]
          · rw [if_neg hm] at hs
            simp at hs

/-- A three-page network trace for an expected total of 12000: page 0 has
the true header and one row; pages 1 and 2 repeat the header (discarded)
and carry one row each. -/
def cexRespAt3 : Nat → HttpResult := fun i =>
  if i = 0 then HttpResult.ok [header80, "a,b"]
  else if i = 1 then HttpResult.ok [header80, "c,d"]
  else HttpResult.ok [header80, "e,f"]

/-- Concrete run of C1: expected_row_count 12000 gives 3 pages at offsets
0, 5000, 10000; with completion order 2, 0, 1 the merged artifact is
still page 0's lines, then page 1's, then page 2's, and agrees with the
in-order run. -/
theorem C1_parallel_plan_witness :
    bigPages 12000 = 3
  ∧ (bigSubmissions (bigPages 12000)).map (fun s => s.offset) = [0, 5000, 10000]
  ∧ (download_big_parallel_pages 12000 cexRespAt3 [2, 0, 1]).finalEvents =
      [FsEvent.writeFinal [header80, "a,b", "c,d", "e,f"]]
  ∧ (download_big_parallel_pages 12000 cexRespAt3 [2, 0, 1]).finalEvents =
      (download_big_parallel_pages 12000 cexRespAt3
        (List.range (bigPages 12000))).finalEvents := by
  refine ⟨by decide, by decide, ?_, ?_⟩
  · rw [(C1_parallel_plan 12000 cexRespAt3 [2, 0, 1]
      (by decide)).2.2.2.2.2.2.2.2 (by decide)]
    decide
  · exact (C1_parallel_plan 12000 cexRespAt3 [2, 0, 1] (by decide)).2.2.2.2.2.2.2.1

/-- C4: any hard page failure fails the whole entity run at once, with a
detail beginning page_download_failed; no merge is attempted (the final
path sees no event and holds no artifact); and the run submits each page
exactly once, performing no entity-level retry. -/
theorem C4_page_failure (e : Nat) (respAt : Nat → HttpResult) (order : List Nat)
    (hord : order.Perm (List.range (bigPages e)))
    (i : Nat) (hi : i < bigPages e) (hfail : (bigFetch respAt i).ok = false) :
    (download_big_parallel_pages e respAt order).success = false
  ∧ (∃ rest, (download_big_parallel_pages e respAt order).detail =
      "page_download_failed:" ++ rest)
  ∧ (download_big_parallel_pages e respAt order).finalEvents = []
  ∧ finalFileAfter (download_big_parallel_pages e respAt order).finalEvents = none
  ∧ (download_big_parallel_pages e respAt order).submissions
      = bigSubmissions (bigPages e)
  ∧ (bigSubmissions (bigPages e)).map (fun s => s.pageIndex)
      = List.range (bigPages e) := by
  have h0 : bigPages e ≠ 0 := by omega
  have hmem : i ∈ order := (hord.mem_iff).mpr (List.mem_range.mpr hi)
  have hne : (order.filterMap (fun j =>
      if (bigFetch respAt j).ok then none
      else some (j, (bigFetch respAt j).msg))) ≠ [] := by
    intro hc
    have hm2 : (i, (bigFetch respAt i).msg) ∈ (order.filterMap (fun j =>
        if (bigFetch respAt j).ok then none
        else some (j, (bigFetch respAt j).msg))) := by
      apply List.mem_filterMap.mpr
      refine ⟨i, hmem, ?_⟩
      simp [hfail]
    rw [hc] at hm2
    simp at hm2
  have hf : ((order.filterMap (fun j =>
      if (bigFetch respAt j).ok then none
      else some (j, (bigFetch respAt j).msg))).isEmpty) = false := by
    cases hl : order.filterMap (fun j =>
        if (bigFetch respAt j).ok then none
        else some (j, (bigFetch respAt j).msg)) with
    | nil => exact absurd hl hne
    | cons a as => rfl
  rw [download_big_parallel_pages, if_neg h0, if_pos hf]
  refine ⟨rfl, ⟨describeFails ((order.filterMap (fun j =>
      if (bigFetch respAt j).ok then none
      else some (j, (bigFetch respAt j).msg))).take 3), rfl⟩, rfl, rfl, rfl, ?_⟩
  rw [bigSubmissions, List.map_map]
  show List.map (fun i => i) (List.range (bigPages e)) = List.range (bigPages e)
  simp

/-- A two-page network trace where page 1 ends with a non-200 status
after its retries. -/
def cexFailRespAt : Nat → HttpResult := fun i =>
  if i = 0 then HttpResult.ok [header80, "a,b"] else HttpResult.httpError 500

/-- Concrete run of C4: expected total 10000 (2 pages) with page 1
failing as HTTP 500 leaves no artifact at the final path. -/
theorem C4_page_failure_witness :
    (download_big_parallel_pages 10000 cexFailRespAt [0, 1]).success = false
  ∧ (download_big_parallel_pages 10000 cexFailRespAt [0, 1]).finalEvents = []
  ∧ finalFileAfter (download_big_parallel_pages 10000 cexFailRespAt [0, 1]).finalEvents
      = none := by
  obtain ⟨h1, h2, h3, h4, h5, h6⟩ := C4_page_failure 10000 cexFailRespAt [0, 1]
    (by decide) 1 (by decide) (by decide)
  exact ⟨h1, h3, h4⟩

theorem seqFinish_final_ok (reqs : List Nat) (wrote : Bool) (total : Nat)
    (tmp : List String) (hinv : tmp.length = (if wrote = true then 1 else 0) + total) :
    (seqFinish reqs wrote total tmp).finalEvents = []
  ∨ ∃ c, (seqFinish reqs wrote total tmp).finalEvents = [FsEvent.renameToFinal c]
      ∧ 2 ≤ c.length
      ∧ validate_header_min_cols c EXPECTED_MIN_COLS = (true, "") := by
  rw [seqFinish]
  by_cases h1 : wrote = false ∨ total = 0
  · rw [if_pos h1]
    left
    rfl
  · rw [if_neg h1]
    push_neg at h1
    obtain ⟨hw, ht⟩ := h1
    have hw2 : wrote = true := by
      revert hw
      cases wrote <;> simp
    by_cases h2 : (validate_header_min_cols tmp EXPECTED_MIN_COLS).1 = true
    · rw [if_pos h2]
      right
      refine ⟨tmp, rfl, ?_, validate_fst_true _ _ h2⟩
      rw [hw2] at hinv
      simp at hinv
      omega
    · rw [if_neg h2]
      left
      rfl

theorem seqGo_final_ok (responses : List HttpResult) :
    ∀ (offset : Nat) (wrote : Bool) (total : Nat) (tmp : List String) (reqs : List Nat),
    offset ≠ 0 →
    tmp.length = (if wrote = true then 1 else 0) + total →
    ((seqGo responses offset wrote total tmp reqs).finalEvents = []
    ∨ ∃ c, (seqGo responses offset wrote total tmp reqs).finalEvents
          = [FsEvent.renameToFinal c]
        ∧ 2 ≤ c.length
        ∧ validate_header_min_cols c EXPECTED_MIN_COLS = (true, "")) := by
  induction responses with
  | nil =>
    intro offset wrote total tmp reqs hoff hinv
    rw [seqGo, if_neg hoff]
    exact seqFinish_final_ok _ _ _ _ hinv
  | cons r rest ih =>
    intro offset wrote total tmp reqs hoff hinv
    cases r with
    | requestError e =>
      left
      rfl
    | httpError s =>
      left
      rfl
    | ok b =>
      rw [seqGo]
      have ho : (offset == 0) = false := by
        simp only [beq_eq_false_iff_ne, ne_eq]
        exact hoff
      rw [ho, pageLines_unseen]
      simp only [Bool.false_and, Bool.false_eq_true, if_false, if_neg hoff]
      by_cases hd : ((nonBlankLines b).tail).length = 0
      · rw [if_pos hd]
        apply seqFinish_final_ok
        rw [List.length_append, hinv, hd]
        cases wrote <;> simp
      · rw [if_neg hd]
        apply ih _ _ _ _ _ (by simp [PAGE_LIMIT])
        rw [List.length_append, hinv]
        cases wrote
        · simp
        · simp
          omega

theorem seq_final_ok (responses : List HttpResult) :
    (download_small_sequential responses).finalEvents = []
  ∨ ∃ c, (download_small_sequential responses).finalEvents = [FsEvent.renameToFinal c]
      ∧ 2 ≤ c.length
      ∧ validate_header_min_cols c EXPECTED_MIN_COLS = (true, "") := by
  cases responses with
  | nil =>
    show (seqGo [] 0 false 0 [] []).finalEvents = _ ∨ _
    rw [seqGo, if_pos rfl]
    exact seqFinish_final_ok _ _ _ _ (by simp)
  | cons r rest =>
    cases r with
    | requestError e =>
      left
      rfl
    | httpError s =>
      left
      rfl
    | ok b =>
      show (seqGo (HttpResult.ok b :: rest) 0 false 0 [] []).finalEvents = []
        ∨ ∃ c, (seqGo (HttpResult.ok b :: rest) 0 false 0 [] []).finalEvents
              = [FsEvent.renameToFinal c]
            ∧ 2 ≤ c.length
            ∧ validate_header_min_cols c EXPECTED_MIN_COLS = (true, "")
      rw [seqGo]
      rw [show ((0 : Nat) == 0) = true from rfl, pageLines_unseen]
      simp only [Bool.true_and, eq_self_iff_true, if_true, List.nil_append, Bool.false_or]
      have hinv : (nonBlankLines b).length =
          (if ((if (!(nonBlankLines b).isEmpty) = true then (1 : Nat) else 0) == 1) = true
            then 1 else 0) + (0 + ((nonBlankLines b).tail).length) := by
        cases hnb : nonBlankLines b
        · simp
        · simp
          omega
      by_cases hd : ((nonBlankLines b).tail).length = 0
      · rw [if_pos hd]
        apply seqFinish_final_ok
        rw [hinv, hd]
      · rw [if_neg hd]
        refine seqGo_final_ok rest _ _ _ _ _ ?_ hinv
        simp [PAGE_LIMIT]

theorem big_final_ok (e : Nat) (respAt : Nat → HttpResult) (order : List Nat)
    (hord : order.Perm (List.range (bigPages e))) :
    finalFileAfter (download_big_parallel_pages e respAt order).finalEvents = none
  ∨ ∃ c, finalFileAfter (download_big_parallel_pages e respAt order).finalEvents = some c
      ∧ 2 ≤ c.length
      ∧ validate_header_min_cols c EXPECTED_MIN_COLS = (true, "") := by
  rw [download_big_parallel_pages]
  by_cases h0 : bigPages e = 0
  · rw [if_pos h0]
    left
    rfl
  · rw [if_neg h0]
    by_cases hf : ((order.filterMap (fun i =>
        if (bigFetch respAt i).ok then none
        else some (i, (bigFetch respAt i).msg))).isEmpty) = false
    · rw [if_pos hf]
      left
      rfl
    · rw [if_neg hf]
      by_cases ht : (order.map (fun i => (bigFetch respAt i).dataLines)).sum = 0
      · rw [if_pos ht]
        left
        rfl
      · rw [if_neg ht]
        have hex : ∃ i ∈ order, (bigFetch respAt i).dataLines ≠ 0 := by
          by_contra hall
          push_neg at hall
          apply ht
          apply List.sum_eq_zero
          intro x hx
          rcases List.mem_map.mp hx with ⟨i, hi, rfl⟩
          exact hall i hi
        obtain ⟨i, hiord, hdne⟩ := hex
        obtain ⟨w, hw, hwne⟩ := bigFetch_data_part respAt i hdne
        have hirange : i ∈ List.range (bigPages e) := (hord.mem_iff).mp hiord
        have hne : (((List.range (bigPages e)).map
            (fun i => (bigFetch respAt i).partFile)).map (fun p => p.getD [])).flatten
            ≠ [] := by
          intro hc
          rw [List.flatten_eq_nil_iff] at hc
          apply hwne
          apply hc w
          rw [List.map_map]
          apply List.mem_map.mpr
          refine ⟨i, hirange, ?_⟩
          simp [Function.comp, hw]
        rcases merge_parts_final _ hne with ⟨hok, hfin, hlen, hval⟩ | ⟨hok, hfin⟩
        · rw [if_pos hok]
          right
          exact ⟨_, hfin, hlen, hval⟩
        · rw [if_neg (by rw [hok]; simp)]
          left
          exact hfin

/-- C5 (amended): the sequential path touches its final path only by
renaming its validated temp file onto it — its final-path events are
either empty or one rename of a validated file of at least two lines —
while the parallel path writes the merged bytes directly to the final
path before validating, deleting them on failure; consequently, on every
outcome of either path, a final path that started absent ends either
with no file or with a validated file of at least two lines, never an
empty or header-only file. -/
theorem C5_final_path :
    (∀ responses : List HttpResult,
      (download_small_sequential responses).finalEvents = []
      ∨ ∃ c, (download_small_sequential responses).finalEvents
            = [FsEvent.renameToFinal c]
          ∧ 2 ≤ c.length
          ∧ validate_header_min_cols c EXPECTED_MIN_COLS = (true, ""))
  ∧ (∀ (e : Nat) (respAt : Nat → HttpResult) (order : List Nat),
      order.Perm (List.range (bigPages e)) →
      finalFileAfter (download_big_parallel_pages e respAt order).finalEvents = none
      ∨ ∃ c, finalFileAfter (download_big_parallel_pages e respAt order).finalEvents
            = some c
          ∧ 2 ≤ c.length
          ∧ validate_header_min_cols c EXPECTED_MIN_COLS = (true, "")) :=
  ⟨seq_final_ok, big_final_ok⟩

/-- A two-page network trace: page 0 has the header and one row, page 1
repeats the header and has one row. -/
def cexRespAt2 : Nat → HttpResult := fun i =>
  if i = 0 then HttpResult.ok [header80, "a,b"] else HttpResult.ok [header80, "c,d"]

/-- Whether an event writes the final path directly, not by a rename. -/
def FsEvent.isDirectWrite : FsEvent → Bool
  | FsEvent.writeFinal _ => true
  | _ => false

/-- C5 counterexample: a successful parallel run receives its final file
by merge_parts writing it directly (a writeFinal event) with no rename
event at all, so the final path does not receive its file by being
renamed to after validation. -/
theorem C5_counterexample :
    (download_big_parallel_pages 10000 cexRespAt2 [0, 1]).success = true
  ∧ ((download_big_parallel_pages 10000 cexRespAt2 [0, 1]).finalEvents.any
      FsEvent.isDirectWrite) = true
  ∧ ((download_big_parallel_pages 10000 cexRespAt2 [0, 1]).finalEvents.any
      (fun ev => match ev with
        | FsEvent.renameToFinal _ => true
        | FsEvent.writeFinal _ => false
        | FsEvent.unlinkFinal => false)) = false := by
  decide

/-- Concrete run of C5 (amended): the parallel path at expected total
10000, completion order 1 then 0. -/
theorem C5_final_path_witness :
    finalFileAfter (download_big_parallel_pages 10000 cexRespAt2 [1, 0]).finalEvents
      = none
  ∨ ∃ c, finalFileAfter (download_big_parallel_pages 10000 cexRespAt2 [1, 0]).finalEvents
        = some c
      ∧ 2 ≤ c.length
      ∧ validate_header_min_cols c EXPECTED_MIN_COLS = (true, "") :=
  C5_final_path.2 10000 cexRespAt2 [1, 0] (by decide)

/-- The state of a file as the repair and validation helpers see it: the
file may be missing, readable with the given bytes, or faulted so that
any I/O on it raises the given exception. -/
inductive FileState where
  | missing
  | content (bytes : List Char)
  | faulted (msg : String)

/-- Python text.splitlines() on decoded bytes: newline-separated pieces,
with no trailing empty piece for a terminal newline. -/
def splitLinesGo : List Char → List Char → List String
  | [], [] => []
  | [], cur => [String.mk cur.reverse]
  | c :: rest, cur =>
    if c = '\n' then String.mk cur.reverse :: splitLinesGo rest []
    else splitLinesGo rest (c :: cur)

/-- The lines of a decoded byte sequence. -/
def splitLines (bytes : List Char) : List String := splitLinesGo bytes []

/-- The try-block of truncate_trailing_partial_row: a missing file
returns unchanged, any access to a faulted file raises its exception,
and otherwise the pure repair runs on the bytes. -/
def ttprBody (fs : FileState) : Except String FileState :=
  match fs with
  | FileState.missing => Except.ok FileState.missing
  | FileState.faulted e => Except.error e
  | FileState.content bytes =>
      Except.ok (FileState.content (truncate_trailing_partial_row bytes))

/-- truncate_trailing_partial_row with its try/except wrapper: the
`except Exception: return` arm swallows any raised exception and leaves
the file as it was (possibly unrepaired). -/
def truncate_trailing_partial_row_run (fs : FileState) : FileState :=
  match ttprBody fs with
  | Except.ok fs2 => fs2
  | Except.error _ => fs

/-- The try-block of validate_header_min_cols: reading a missing file
raises FileNotFoundError, a faulted file raises its exception, and
otherwise the decoded lines are validated. -/
def validateBody (fs : FileState) (minCols : Nat) : Except String (Bool × String) :=
  match fs with
  | FileState.missing => Except.error "file_not_found"
  | FileState.faulted e => Except.error e
  | FileState.content bytes =>
      Except.ok (validate_header_min_cols (splitLines bytes) minCols)

/-- validate_header_min_cols with its try/except wrapper: any raised
exception becomes the (False, validation_error:...) result. -/
def validate_header_min_cols_run (fs : FileState) (minCols : Nat) : Bool × String :=
  match validateBody fs minCols with
  | Except.ok r => r
  | Except.error e => (false, "validation_error:" ++ e)

/-- C10: repair and validation never propagate an exception to their
caller: on a missing or faulted file the repair returns normally with the
file unrepaired, validation turns every raised exception into a
(false, validation_error:...) result, a readable file takes the normal
path of each, and a passing validation can never have come from the
swallowed-exception path. -/
theorem C10_exception_safety (msg : String) (bytes : List Char) (minCols : Nat) :
    truncate_trailing_partial_row_run (FileState.faulted msg) = FileState.faulted msg
  ∧ truncate_trailing_partial_row_run FileState.missing = FileState.missing
  ∧ truncate_trailing_partial_row_run (FileState.content bytes)
      = FileState.content (truncate_trailing_partial_row bytes)
  ∧ validate_header_min_cols_run (FileState.faulted msg) minCols
      = (false, "validation_error:" ++ msg)
  ∧ validate_header_min_cols_run FileState.missing minCols
      = (false, "validation_error:" ++ "file_not_found")
  ∧ validate_header_min_cols_run (FileState.content bytes) minCols
      = validate_header_min_cols (splitLines bytes) minCols
  ∧ (∀ fs : FileState, (validate_header_min_cols_run fs minCols).1 = true →
      validateBody fs minCols = Except.ok (validate_header_min_cols_run fs minCols)) := by
  refine ⟨rfl, rfl, rfl, rfl, rfl, rfl, ?_⟩
  intro fs hok
  cases fs with
  | missing => simp [validate_header_min_cols_run, validateBody] at hok
  | faulted e => simp [validate_header_min_cols_run, validateBody] at hok
  | content bytes2 => rfl

/-- Concrete run of C10: a faulted file is swallowed by both helpers, and
a passing validation of a readable one-byte file comes from the normal
path. -/
theorem C10_exception_safety_witness :
    truncate_trailing_partial_row_run (FileState.faulted "disk error")
      = FileState.faulted "disk error"
  ∧ validate_header_min_cols_run (FileState.faulted "disk error") 80
      = (false, "validation_error:" ++ "disk error")
  ∧ validateBody (FileState.content ['a']) 1
      = Except.ok (validate_header_min_cols_run (FileState.content ['a']) 1) :=
  ⟨(C10_exception_safety "disk error" [] 80).1,
   (C10_exception_safety "disk error" [] 80).2.2.2.1,
   (C10_exception_safety "disk error" ['a'] 1).2.2.2.2.2.2
     (FileState.content ['a']) (by decide)⟩
